import Mathlib

/-!
Verification of the batch-processing engine of the GROBID python client
(`grobid_client/grobid_client.py`), against its natural-language
specification.  The embedding models the pure data flow of
`GrobidClient.process` / `process_batch` / `process_pdf` / `process_txt` /
`_output_file_name`: filesystem walks, backend replies and clock sleeps are
reified as explicit values, machine effects (log lines, artifact writes)
as lists carried in the result records.
-/

namespace GC

/-! ## Character-list string utilities

The client manipulates paths with CPython's `os.path` (= `posixpath` on the
POSIX platforms the client targets) and `ntpath`.  We model those functions
on `List Char`, mirroring the CPython implementations.  The models cover
single-rooted POSIX paths: the `posixpath.normpath` special case preserving
exactly two leading slashes and the `ntpath` UNC (`//host/share`) prefix
handling are not reproduced. -/

/-- Split a character list on a separator, keeping empty groups, like
Python's `str.split(sep)`. -/
def splitChar (sep : Char) : List Char → List (List Char)
  | [] => [[]]
  | c :: cs =>
    if c = sep then [] :: splitChar sep cs
    else
      match splitChar sep cs with
      | [] => [[c]]
      | g :: gs => (c :: g) :: gs

/-- Non-empty `/`-separated components of a path string, as in CPython's
`[x for x in p.split(sep) if x]`. -/
def partsOf (cs : List Char) : List (List Char) :=
  (splitChar '/' cs).filter (fun g => g ≠ [])

/-- One step of `posixpath.normpath` component processing for an absolute
path: `.` and empty components vanish, `..` pops the last kept component
(or vanishes at the root). -/
def normStep (acc : List (List Char)) (c : List Char) : List (List Char) :=
  if c = ['.', '.'] then acc.dropLast
  else if c = ['.'] ∨ c = [] then acc
  else acc ++ [c]

/-- Component normalisation of an absolute path, as `posixpath.normpath`. -/
def normParts (l : List (List Char)) : List (List Char) :=
  l.foldl normStep []

/-- Whether a path string is absolute (`posixpath.isabs`). -/
def isAbs (p : String) : Bool := p.data.head? = some '/'

/-- Normalised components of `posixpath.abspath(p)` evaluated with current
working directory `cwd`: relative paths are joined onto `cwd` first. -/
def absParts (cwd p : String) : List (List Char) :=
  if isAbs p then normParts (partsOf p.data)
  else normParts (partsOf cwd.data ++ partsOf p.data)

/-- Python's `sep.flatten` for `sep = "/"`, on component character lists. -/
def joinSlash : List (List Char) → List Char
  | [] => []
  | [a] => a
  | a :: b :: rest => a ++ '/' :: joinSlash (b :: rest)

/-- Rebuild the absolute path string from components: `posixpath.normpath`
output for a single-rooted absolute path. -/
def mkAbs (l : List (List Char)) : String :=
  String.mk ('/' :: joinSlash l)

/-- The string returned by `posixpath.abspath(p)` under working directory
`cwd`. -/
def abspath (cwd p : String) : String := mkAbs (absParts cwd p)

/-- Length of the element-wise common prefix of two component lists, as
`len(commonprefix([a, b]))` in `posixpath.relpath`. -/
def commonPrefixLen : List (List Char) → List (List Char) → Nat
  | a :: as, b :: bs => if a = b then commonPrefixLen as bs + 1 else 0
  | _, _ => 0

/-- `posixpath.relpath(path, start)` under working directory `cwd`: both
arguments are made absolute, the common component prefix is dropped, and
one `..` is emitted per remaining `start` component.  The final
`os.path.flatten(*rel_list)` is a plain `/`-intercalation because the emitted
components are never absolute or empty. -/
def relpath (cwd path start : String) : String :=
  let p := absParts cwd path
  let s := absParts cwd start
  let i := commonPrefixLen s p
  let rel := List.replicate (s.length - i) ['.', '.'] ++ p.drop i
  if rel = [] then "." else String.mk (joinSlash rel)

/-- Two-argument `posixpath.flatten`. -/
def pjoin (a b : String) : String :=
  if b.data.head? = some '/' then b
  else if a = "" ∨ a.data.getLast? = some '/' then a ++ b
  else a ++ "/" ++ b

/-- Index of the last character satisfying `f`, if any. -/
def lastIdxWhere (f : Char → Bool) (cs : List Char) : Option Nat :=
  match cs.reverse.findIdx? f with
  | none => none
  | some r => some (cs.length - 1 - r)

/-- `posixpath.splitext` on the underlying characters: split at the last
dot that lies strictly inside the basename, unless every basename
character before it is itself a dot (so `.bashrc` keeps no extension). -/
def splitextData (cs : List Char) : List Char × List Char :=
  match lastIdxWhere (fun c => c = '.') cs with
  | none => (cs, [])
  | some d =>
    let fi := match lastIdxWhere (fun c => c = '/') cs with
      | none => 0
      | some sIdx => sIdx + 1
    if fi ≤ d then
      if ((cs.drop fi).take (d - fi)).all (fun c => c = '.') then (cs, [])
      else (cs.take d, cs.drop d)
    else (cs, [])

/-- The stem part of `posixpath.splitext`. -/
def splitextFst (s : String) : String := String.mk (splitextData s.data).1

/-- Windows path separator test used by `ntpath`. -/
def isNtSep (c : Char) : Bool := c = '/' ∨ c = '\\'

/-- `ntpath.splitdrive`, drive-letter case only (UNC prefixes unmodeled). -/
def ntSplitdrive (cs : List Char) : List Char × List Char :=
  match cs with
  | a :: b :: rest => if b = ':' then ([a, ':'], rest) else ([], a :: b :: rest)
  | _ => ([], cs)

/-- `ntpath.split`: cut after the last separator of either kind, stripping
trailing separators from the head unless it is all separators. -/
def ntSplitPath (cs : List Char) : List Char × List Char :=
  let d := (ntSplitdrive cs).1
  let p := (ntSplitdrive cs).2
  let i := match lastIdxWhere isNtSep p with
    | none => 0
    | some k => k + 1
  let head := p.take i
  let tail := p.drop i
  let stripped := (head.reverse.dropWhile isNtSep).reverse
  (d ++ (if stripped = [] then head else stripped), tail)

/-- `ntpath.basename`. -/
def ntBasename (s : String) : String := String.mk (ntSplitPath s.data).2

/-- `ntpath.dirname`. -/
def ntDirname (s : String) : String := String.mk (ntSplitPath s.data).1

/-- Python's `str.endswith`. -/
def endsWithStr (s suffix : String) : Bool := suffix.data.isSuffixOf s.data

/-- Python's `str.replace` (all non-overlapping occurrences, left to
right), driven by a character-count fuel so that the recursion is
structural.  The empty-pattern case, unused by the client, returns the
string unchanged. -/
def replaceAllAux (pat rep : List Char) : Nat → List Char → List Char
  | 0, s => s
  | _ + 1, [] => []
  | fuel + 1, c :: cs =>
    if pat ≠ [] ∧ pat.isPrefixOf (c :: cs) then
      rep ++ replaceAllAux pat rep fuel ((c :: cs).drop pat.length)
    else c :: replaceAllAux pat rep fuel cs

/-- Python's `str.replace`: a fuel of the subject's length always
suffices, since every step consumes at least one character. -/
def replaceAll (pat rep s : List Char) : List Char :=
  replaceAllAux pat rep s.length s

example : splitextFst "sub/a.pdf" = "sub/a" := by decide
example : splitextFst ".bashrc" = ".bashrc" := by decide
example : relpath "/" "/data/sub/a.pdf" "/data" = "sub/a.pdf" := by decide
example : ntBasename "/data/sub/a.pdf" = "a.pdf" := by decide
example : ntDirname "/data/sub/a.pdf" = "/data/sub" := by decide
example : pjoin "/res" "sub/a.grobid.tei.xml" = "/res/sub/a.grobid.tei.xml" := by decide
example : String.mk (replaceAll ".grobid.tei.xml".data "_500.txt".data
    "/res/sub/a.grobid.tei.xml".data) = "/res/sub/a_500.txt" := by decide
example : endsWithStr "x/a.pdf" ".pdf" = true := by decide

/-! ## Data model of the client -/

/-- The configuration values consumed by the processing methods
(`GrobidClient.config`); only the keys the engine reads are kept.
`sleep_time` is the busy-retry delay and `timeout` the per-call deadline
handed to the transport.  The worker-pool size `n` affects scheduling
only, never results, and is not modeled. -/
structure Config where
  grobid_server : String
  batch_size : Nat
  sleep_time : Int
  timeout : Int
  coordinates : List String
deriving DecidableEq

/-- The per-call boolean options of `GrobidClient.process`. -/
structure Options where
  generateIDs : Bool
  consolidate_header : Bool
  consolidate_citations : Bool
  include_raw_citations : Bool
  include_raw_affiliations : Bool
  tei_coordinates : Bool
  segment_sentences : Bool
deriving DecidableEq

/-- A form-data value: a plain string or a list of strings (the
`teiCoordinates` and `citations` entries are lists). -/
inductive FormValue where
  | s (v : String)
  | l (vs : List String)
deriving DecidableEq

/-- One HTTP POST issued through the transport, as observable at the call
sites in `process_pdf` / `process_txt`: URL, per-call deadline (absent
when the code passes no `timeout=`), accept header and form data. -/
structure PostRequest where
  url : String
  timeout : Option Int
  accept : String
  data : List (String × FormValue)
deriving DecidableEq

/-- Modelled from the spec: the transport layer `ApiClient.post` (module
`grobid_client/client.py`, absent from the sources) performs one remote
call and either returns a `(status_code, body)` pair — with `503` the
remote busy signal — or raises a timeout/transport exception.  A `Reply`
is the transport-level event one call attempt observes; `ioError` and
`unicodeError` stand for the local failures opening/reading the input
file that the client catches around the call. -/
inductive Reply where
  | http (status : Int) (text : String)
  | ioError (msg : String)
  | readTimeout (msg : String)
  | requestError (msg : String)
  | unexpectedError (msg : String)
  | unicodeError (msg : String)
deriving DecidableEq

/-- The observable behaviour of one `process_pdf` / `process_txt`
invocation: the POST requests issued (one per attempt that reaches the
transport), the sleeps performed (one entry per busy retry, each the
configured delay), and the returned `(status, text)` pair — `none` when
the attempt script is exhausted while the server still reports busy,
i.e. the unbounded retry loop has not returned. -/
structure CallRun where
  requests : List PostRequest
  sleeps : List Int
  result : Option (Int × Option String)
deriving DecidableEq

/-- `GrobidClient.get_server_url`. -/
def get_server_url (cfg : Config) (service : String) : String :=
  cfg.grobid_server ++ "/api/" ++ service

/-- The form data built by `process_pdf`: each flag contributes its field
in source order; `flavor` contributes only when Python-truthy (non-`None`
and non-empty); `start`/`end` only when positive. -/
def pdfData (cfg : Config) (o : Options) (flavor : Option String)
    (start stop : Int) : List (String × FormValue) :=
  (if o.generateIDs then [("generateIDs", FormValue.s "1")] else []) ++
  (if o.consolidate_header then [("consolidateHeader", FormValue.s "1")] else []) ++
  (if o.consolidate_citations then [("consolidateCitations", FormValue.s "1")] else []) ++
  (if o.include_raw_citations then [("includeRawCitations", FormValue.s "1")] else []) ++
  (if o.include_raw_affiliations then [("includeRawAffiliations", FormValue.s "1")] else []) ++
  (if o.tei_coordinates then [("teiCoordinates", FormValue.l cfg.coordinates)] else []) ++
  (if o.segment_sentences then [("segmentSentences", FormValue.s "1")] else []) ++
  (match flavor with
   | some f => if f = "" then [] else [("flavor", FormValue.s f)]
   | none => []) ++
  (if 0 < start then [("start", FormValue.s (toString start))] else []) ++
  (if 0 < stop then [("end", FormValue.s (toString stop))] else [])

/-- The POST issued by `process_pdf`: the per-call deadline is
`config.timeout`. -/
def pdfRequest (cfg : Config) (service : String) (o : Options)
    (flavor : Option String) (start stop : Int) : PostRequest :=
  { url := get_server_url cfg service
    timeout := some cfg.timeout
    accept := "text/plain"
    data := pdfData cfg o flavor start stop }

/-- The POST issued by `process_txt`: the call passes no `timeout=`
argument, so the request carries no per-call deadline. -/
def txtRequest (cfg : Config) (service : String) (o : Options)
    (lines : List String) : PostRequest :=
  { url := get_server_url cfg service
    timeout := none
    accept := "application/xml"
    data :=
      (if o.consolidate_citations then [("consolidateCitations", FormValue.s "1")] else []) ++
      (if o.include_raw_citations then [("includeRawCitations", FormValue.s "1")] else []) ++
      [("citations", FormValue.l lines)] }

/-- `GrobidClient.process_pdf` over a script of transport events, one per
attempt.  A `503` reply makes the worker sleep `config.sleep_time` and
re-invoke itself on the rest of the script with identical arguments; any
other reply is terminal.  Exception dispatch: the `except IOError` clause
comes first and `requests.exceptions.RequestException` subclasses
`IOError`, so every transport exception — a read timeout, a connection
or other request failure, or the failure opening the input file — lands
in the `IOError` arm and returns status `400` with the
`Failed to open file:` message; the dedicated `ReadTimeout` (408) and
`RequestException` (500) handlers below it are unreachable.  Only an
exception outside the `IOError` hierarchy (such as `UnicodeDecodeError`)
reaches the generic handler (`500`, `Unexpected error:`). -/
def process_pdf (cfg : Config) (service pdf_file : String) (o : Options)
    (flavor : Option String) (start stop : Int) : List Reply → CallRun
  | [] => { requests := [], sleeps := [], result := none }
  | Reply.http status text :: rest =>
    if status = 503 then
      let r := process_pdf cfg service pdf_file o flavor start stop rest
      { requests := pdfRequest cfg service o flavor start stop :: r.requests
        sleeps := cfg.sleep_time :: r.sleeps
        result := r.result }
    else
      { requests := [pdfRequest cfg service o flavor start stop]
        sleeps := []
        result := some (status, some text) }
  | Reply.ioError m :: _ =>
    { requests := [], sleeps := []
      result := some (400, some ("Failed to open file: " ++ m)) }
  | Reply.readTimeout m :: _ =>
    { requests := [pdfRequest cfg service o flavor start stop], sleeps := []
      result := some (400, some ("Failed to open file: " ++ m)) }
  | Reply.requestError m :: _ =>
    { requests := [pdfRequest cfg service o flavor start stop], sleeps := []
      result := some (400, some ("Failed to open file: " ++ m)) }
  | Reply.unexpectedError m :: _ =>
    { requests := [pdfRequest cfg service o flavor start stop], sleeps := []
      result := some (500, some ("Unexpected error: " ++ m)) }
  | Reply.unicodeError m :: _ =>
    { requests := [pdfRequest cfg service o flavor start stop], sleeps := []
      result := some (500, some ("Unexpected error: " ++ m)) }

/-- `GrobidClient.process_txt` over a script of transport events.  The
input file's lines are `lines` (re-read on every retry, unchanged here);
read failures return `500` before any request; `process_txt` has no
dedicated timeout handler, so a read timeout falls into the generic
`RequestException` handler (`500`). -/
def process_txt (cfg : Config) (service txt_file : String) (o : Options)
    (lines : List String) : List Reply → CallRun
  | [] => { requests := [], sleeps := [], result := none }
  | Reply.ioError m :: _ =>
    { requests := [], sleeps := []
      result := some (500, some ("Failed to read file: " ++ m)) }
  | Reply.unicodeError m :: _ =>
    { requests := [], sleeps := []
      result := some (500, some ("Unicode decode error: " ++ m)) }
  | Reply.http status text :: rest =>
    if status = 503 then
      let r := process_txt cfg service txt_file o lines rest
      { requests := txtRequest cfg service o lines :: r.requests
        sleeps := cfg.sleep_time :: r.sleeps
        result := r.result }
    else
      { requests := [txtRequest cfg service o lines]
        sleeps := []
        result := some (status, some text) }
  | Reply.readTimeout m :: _ =>
    { requests := [txtRequest cfg service o lines], sleeps := []
      result := some (500, some ("Request failed: " ++ m)) }
  | Reply.requestError m :: _ =>
    { requests := [txtRequest cfg service o lines], sleeps := []
      result := some (500, some ("Request failed: " ++ m)) }
  | Reply.unexpectedError m :: _ =>
    { requests := [txtRequest cfg service o lines], sleeps := []
      result := some (500, some ("Unexpected error: " ++ m)) }

/-- `GrobidClient._output_file_name`: with an output root, re-root the
input's path relative to `input_path` under `output` and substitute the
result suffix; without one, place the artifact beside the input.  `cwd`
is the process working directory consulted by `os.path.abspath` /
`os.path.relpath`. -/
def output_file_name (cwd input_file input_path : String)
    (output : Option String) : String :=
  match output with
  | some out =>
    let input_file_name := relpath cwd (abspath cwd input_file) input_path
    pjoin out (splitextFst input_file_name ++ ".grobid.tei.xml")
  | none =>
    let input_file_name := ntBasename input_file
    pjoin (ntDirname input_file) (splitextFst input_file_name ++ ".grobid.tei.xml")

/-- The error-artifact path of `process_batch`:
`filename.replace(".grobid.tei.xml", f"_\x7bstatus\x7d.txt")`. -/
def errorFileName (filename : String) (status : Int) : String :=
  String.mk (replaceAll ".grobid.tei.xml".data
    ("_" ++ toString status ++ ".txt").data filename.data)

/-- One reconciliation decision of `process_batch`: a result is a success
exactly when its status is `200` and its text is not `None`; a success
writes the text verbatim to the resolved output path, anything else
writes the text (or the empty string) to the error-artifact path. -/
structure Recon where
  isOk : Bool
  write : String × String
deriving DecidableEq

/-- Modelled from the spec: the success condition as the specification
words it — "protocol status 200-equivalent and a non-empty body" — for
comparison with the condition the code actually tests. -/
def specSuccessCond (status : Int) (text : Option String) : Prop :=
  status = 200 ∧ text ≠ none ∧ text ≠ some ""

/-- The classification-and-write step of `process_batch` for one
completed result. -/
def reconcileOne (filename : String) (status : Int) (text : Option String) : Recon :=
  if status ≠ 200 ∨ text = none then
    { isOk := false, write := (errorFileName filename status, text.getD "") }
  else
    { isOk := true, write := (filename, text.getD "") }

/-- The reconciliation loop of `process_batch` over the completed
results, returning `(processed_count, error_count, artifact writes)`. -/
def reconcileAll (cwd input_path : String) (output : Option String) :
    List (String × Int × Option String) → Nat × Nat × List (String × String)
  | [] => (0, 0, [])
  | (f, st, tx) :: rest =>
    let fn := output_file_name cwd f input_path output
    let r := reconcileOne fn st tx
    let acc := reconcileAll cwd input_path output rest
    if r.isOk then (acc.1 + 1, acc.2.1, r.write :: acc.2.2)
    else (acc.1, acc.2.1 + 1, r.write :: acc.2.2)

/-! ## Batch scheduling -/

/-- A dispatch/terminal-outcome event of the run, tagged with the index
of the batch it belongs to. -/
inductive Event where
  | dispatch (batch : Nat) (file : String)
  | terminal (batch : Nat) (file : String)
deriving DecidableEq

/-- The batch an event belongs to. -/
def Event.batchOf : Event → Nat
  | .dispatch b _ => b
  | .terminal b _ => b

/-- The ways a run fails to reach its end: the `TypeError` raised when
`process_batch` submits `process_txt` with the twelve positional
arguments of the `executor.submit` call (three more than `process_txt`
accepts), re-raised at `r.result()`; or a worker that never returns
because its busy-retry script is exhausted while the server still
reports busy. -/
inductive RunAbort where
  | typeError (msg : String)
  | hang (file : String)
deriving DecidableEq

/-- The observable outcome of one `process_batch` call. -/
structure BatchOut where
  processed : Nat
  errors : Nat
  skippedFiles : List String
  writes : List (String × String)
  events : List Event
  sleeps : List Int
deriving DecidableEq

/-- The skip test of `process_batch`: without `force`, a job whose
resolved success-artifact path already exists on the filesystem `fs` is
skipped. -/
def skipJob (cwd input_path : String) (output : Option String)
    (force : Bool) (fs : String → Bool) (f : String) : Bool :=
  !force && fs (output_file_name cwd f input_path output)

/-- `GrobidClient.process_batch` for batch index `m`: filter out skipped
jobs, submit the rest (the citation-list service selects `process_txt`,
whose arity the submission violates), wait for every worker, then
reconcile all results.  `backend` maps each input file to its
transport-event script. -/
def process_batch (cfg : Config) (cwd service input_path : String)
    (output : Option String) (o : Options) (force : Bool)
    (flavor : Option String) (backend : String → List Reply)
    (fs : String → Bool) (m : Nat) (files : List String) :
    Except RunAbort BatchOut :=
  let skipped := files.filter (skipJob cwd input_path output force fs)
  let submitted := files.filter (fun f => !skipJob cwd input_path output force fs f)
  if service = "processCitationList" ∧ submitted ≠ [] then
    Except.error (RunAbort.typeError
      "process_txt takes 9 positional arguments but 12 were given")
  else
    let runs := submitted.map (fun f =>
      (f, process_pdf cfg service f o flavor (-1) (-1) (backend f)))
    match runs.find? (fun r => r.2.result.isNone) with
    | some r => Except.error (RunAbort.hang r.1)
    | none =>
      let results := runs.map (fun r => (r.1, r.2.result.getD (0, none)))
      let tally := reconcileAll cwd input_path output results
      Except.ok
        { processed := tally.1
          errors := tally.2.1
          skippedFiles := skipped
          writes := tally.2.2
          events := submitted.map (Event.dispatch m) ++
            results.map (fun r => Event.terminal m r.1)
          sleeps := runs.flatMap (fun r => r.2.sleeps) }

/-- The eligibility test of `GrobidClient.process`: PDF always; `.txt`
only for the citation-list service; `.xml` only for the ST36 patent
service. -/
def eligibleName (service filename : String) : Bool :=
  endsWithStr filename ".pdf" || endsWithStr filename ".PDF" ||
  (service = "processCitationList" &&
    (endsWithStr filename ".txt" || endsWithStr filename ".TXT")) ||
  (service = "processCitationPatentST36" &&
    (endsWithStr filename ".xml" || endsWithStr filename ".XML"))

/-- The discovery pass of `GrobidClient.process` over the `os.walk`
output (a list of `(dirpath, filenames)` groups): eligible names are
collected in walk order as `dirpath + os.sep + filename`. -/
def eligibleFiles (service : String) (walk : List (String × List String)) :
    List String :=
  walk.flatMap (fun d =>
    (d.2.filter (eligibleName service)).map (fun fn => d.1 ++ "/" ++ fn))

/-- The batching loop of `GrobidClient.process`: files are appended to
the pending batch, which is flushed whenever its length reaches
`batch_size`.  Returns the flushed batches and the pending remainder. -/
def chunksAux (bs : Nat) : List String → List (List String) → List String →
    List (List String) × List String
  | [], done, cur => (done, cur)
  | f :: rest, done, cur =>
    let cur' := cur ++ [f]
    if cur'.length = bs then chunksAux bs rest (done ++ [cur']) []
    else chunksAux bs rest done cur'

/-- Flushed batches and final remainder of the batching loop. -/
def chunks (bs : Nat) (files : List String) : List (List String) × List String :=
  chunksAux bs files [] []

/-- The sequence of `process_batch` invocations of one run, each with the
flavor it is passed: every in-loop (full) batch receives the caller's
`flavor`, while the trailing `if len(input_files) > 0` call omits the
`flavor` argument, so the final partial batch is dispatched with flavor
`None`. -/
def batchPlan (bs : Nat) (flavor : Option String) (files : List String) :
    List (List String × Option String) :=
  (chunks bs files).1.map (fun b => (b, flavor)) ++
    (if (chunks bs files).2 = [] then []
     else [((chunks bs files).2, (none : Option String))])

/-- Accumulated run state across batches. -/
structure RunAcc where
  processed : Nat
  errors : Nat
  skipped : List String
  writes : List (String × String)
  events : List Event
  sleeps : List Int
  idx : Nat
deriving DecidableEq

/-- Extend the filesystem with the artifact paths written so far:
batch `k`'s writes are on disk before batch `k+1`'s skip checks run. -/
def fsWith (fs : String → Bool) (writes : List (String × String)) :
    String → Bool :=
  fun p => fs p || (writes.map Prod.fst).contains p

/-- Fold one batch's outcome into the run accumulator. -/
def RunAcc.add (acc : RunAcc) (b : BatchOut) : RunAcc :=
  { processed := acc.processed + b.processed
    errors := acc.errors + b.errors
    skipped := acc.skipped ++ b.skippedFiles
    writes := acc.writes ++ b.writes
    events := acc.events ++ b.events
    sleeps := acc.sleeps ++ b.sleeps
    idx := acc.idx + 1 }

/-- Drive the planned batches sequentially, threading counters and the
filesystem. -/
def runBatches (cfg : Config) (cwd service input_path : String)
    (output : Option String) (o : Options) (force : Bool)
    (backend : String → List Reply) (fs : String → Bool) :
    List (List String × Option String) → RunAcc → Except RunAbort RunAcc
  | [], acc => Except.ok acc
  | (files, flv) :: rest, acc =>
    match process_batch cfg cwd service input_path output o force flv backend
        (fsWith fs acc.writes) acc.idx files with
    | Except.error a => Except.error a
    | Except.ok b =>
      runBatches cfg cwd service input_path output o force backend fs rest
        (acc.add b)

/-- The observable outcome of `GrobidClient.process`: the discovery
total, the accumulated per-file counters, the skip log entries, the
artifact writes, the dispatch/terminal trace, the busy-retry sleeps and
the warnings. -/
structure RunOut where
  total : Nat
  processed : Nat
  errors : Nat
  skipped : List String
  writes : List (String × String)
  events : List Event
  sleeps : List Int
  warnings : List String
deriving DecidableEq, Inhabited

/-- `GrobidClient.process`: enumerate eligible files; warn and return at
once when none exist; otherwise run the planned batches sequentially and
accumulate their tallies. -/
def process (cfg : Config) (cwd service input_path : String)
    (output : Option String) (o : Options) (force : Bool)
    (flavor : Option String) (backend : String → List Reply)
    (fs : String → Bool) (walk : List (String × List String)) :
    Except RunAbort RunOut :=
  let all := eligibleFiles service walk
  if all.length = 0 then
    Except.ok
      { total := 0, processed := 0, errors := 0, skipped := [], writes := []
        events := [], sleeps := []
        warnings := ["No eligible files found in " ++ input_path] }
  else
    match runBatches cfg cwd service input_path output o force backend fs
        (batchPlan cfg.batch_size flavor all)
        { processed := 0, errors := 0, skipped := [], writes := []
          events := [], sleeps := [], idx := 0 } with
    | Except.error a => Except.error a
    | Except.ok acc =>
      Except.ok
        { total := all.length, processed := acc.processed
          errors := acc.errors, skipped := acc.skipped, writes := acc.writes
          events := acc.events, sleeps := acc.sleeps, warnings := [] }

/-- A small configuration used by the concrete witnesses below. -/
def cfgEx : Config :=
  { grobid_server := "http://localhost:8070", batch_size := 2, sleep_time := 5
    timeout := 180, coordinates := ["persName", "figure"] }

/-- All-off option set used by the concrete witnesses below. -/
def optsEx : Options :=
  { generateIDs := false, consolidate_header := false
    consolidate_citations := false, include_raw_citations := false
    include_raw_affiliations := false, tei_coordinates := false
    segment_sentences := false }

/-- Backend stub used by the concrete witnesses: one permanent `404` for
`b.pdf`, busy-once-then-success for everything else. -/
def backendEx : String → List Reply := fun f =>
  if f = "/in/b.pdf" then [Reply.http 404 "nf"]
  else [Reply.http 503 "busy", Reply.http 200 "tei"]

/-- Walk stub used by the concrete witnesses: three eligible PDFs and one
ineligible file. -/
def walkEx : List (String × List String) :=
  [("/in", ["a.pdf", "b.pdf", "c.pdf", "notes.doc"])]

/-- A concrete full run over `walkEx` with batch size 2. -/
def runEx : Except RunAbort RunOut :=
  process cfgEx "/" "processFulltextDocument" "/in" (some "/out") optsEx
    true none backendEx (fun _ => false) walkEx

/-- The outcome of the concrete run `runEx`. -/
def runExOut : RunOut := runEx.toOption.getD default

example :
    runEx.toOption.map (fun r => (r.total, r.processed, r.errors, r.writes)) =
    some (3, 2, 1,
      [("/out/a.grobid.tei.xml", "tei"), ("/out/b_404.txt", "nf"),
       ("/out/c.grobid.tei.xml", "tei")]) := by
  decide

/-! ## List and path lemmas -/

theorem splitChar_ne_nil (sep : Char) (cs : List Char) : splitChar sep cs ≠ [] := by
  induction cs with
  | nil => simp [splitChar]
  | cons c cs ih =>
    simp only [splitChar]
    split
    · simp
    · cases h : splitChar sep cs with
      | nil => exact absurd h ih
      | cons g gs => simp

theorem mem_splitChar_not_sep (sep : Char) (cs : List Char) :
    ∀ g ∈ splitChar sep cs, sep ∉ g := by
  induction cs with
  | nil =>
    intro g hg
    simp [splitChar] at hg
    simp [hg]
  | cons c cs ih =>
    intro g hg
    simp only [splitChar] at hg
    by_cases hc : c = sep
    · rw [if_pos hc] at hg
      rcases List.mem_cons.mp hg with h | h
      · simp [h]
      · exact ih g h
    · rw [if_neg hc] at hg
      cases hsc : splitChar sep cs with
      | nil => exact absurd hsc (splitChar_ne_nil sep cs)
      | cons g0 gs =>
        rw [hsc] at hg
        rcases List.mem_cons.mp hg with h | h
        · subst h
          intro hmem
          rcases List.mem_cons.mp hmem with h1 | h1
          · exact hc h1.symm
          · exact ih g0 (hsc ▸ List.mem_cons_self g0 gs) h1
        · exact ih g (hsc ▸ List.mem_cons_of_mem g0 h)

theorem splitChar_no_sep (sep : Char) (a : List Char) (h : sep ∉ a) :
    splitChar sep a = [a] := by
  induction a with
  | nil => simp [splitChar]
  | cons c cs ih =>
    have hc : ¬(c = sep) := fun hcs => h (hcs ▸ List.mem_cons_self c cs)
    have hcs : sep ∉ cs := fun hm => h (List.mem_cons_of_mem c hm)
    simp only [splitChar, if_neg hc, ih hcs]

theorem splitChar_append_sep (sep : Char) (a cs : List Char) (h : sep ∉ a) :
    splitChar sep (a ++ sep :: cs) = a :: splitChar sep cs := by
  induction a with
  | nil => simp [splitChar]
  | cons c a2 ih =>
    have hc : ¬(c = sep) := fun hcs => h (hcs ▸ List.mem_cons_self c a2)
    have ha2 : sep ∉ a2 := fun hm => h (List.mem_cons_of_mem c hm)
    show splitChar sep (c :: (a2 ++ sep :: cs)) = (c :: a2) :: splitChar sep cs
    simp only [splitChar, if_neg hc]
    rw [ih ha2]

theorem partsOf_roundtrip (l : List (List Char))
    (h : ∀ g ∈ l, g ≠ [] ∧ '/' ∉ g) :
    partsOf ('/' :: joinSlash l) = l := by
  induction l with
  | nil => simp [partsOf, joinSlash, splitChar]
  | cons a rest ih =>
    cases rest with
    | nil =>
      have ha := h a (List.mem_cons_self a [])
      show partsOf ('/' :: joinSlash [a]) = [a]
      have h1 : joinSlash [a] = a := rfl
      rw [h1]
      have h2 : splitChar '/' ('/' :: a) = [] :: splitChar '/' a := by
        simp [splitChar]
      unfold partsOf
      rw [h2, splitChar_no_sep '/' a ha.2]
      simp [ha.1]
    | cons b rest2 =>
      have ha := h a (List.mem_cons_self a _)
      have hrest : ∀ g ∈ b :: rest2, g ≠ [] ∧ '/' ∉ g := fun g hg =>
        h g (List.mem_cons_of_mem a hg)
      have h1 : joinSlash (a :: b :: rest2) = a ++ '/' :: joinSlash (b :: rest2) := rfl
      have h2 : splitChar '/' ('/' :: (a ++ '/' :: joinSlash (b :: rest2))) =
          [] :: a :: splitChar '/' (joinSlash (b :: rest2)) := by
        have h3 : splitChar '/' ('/' :: (a ++ '/' :: joinSlash (b :: rest2))) =
            [] :: splitChar '/' (a ++ '/' :: joinSlash (b :: rest2)) := by
          simp [splitChar]
        rw [h3, splitChar_append_sep '/' a (joinSlash (b :: rest2)) ha.2]
      have ihres := ih hrest
      have h4 : splitChar '/' ('/' :: joinSlash (b :: rest2)) =
          [] :: splitChar '/' (joinSlash (b :: rest2)) := by
        simp [splitChar]
      unfold partsOf at ihres ⊢
      rw [h4] at ihres
      rw [h1, h2]
      have hX : List.filter (fun g => decide (g ≠ []))
          (splitChar '/' (joinSlash (b :: rest2))) = b :: rest2 := by
        simpa using ihres
      simp [ha.1]
      simpa using hX

theorem mem_normParts_sub (l : List (List Char)) :
    ∀ x ∈ normParts l, x ∈ l := by
  suffices h : ∀ (l : List (List Char)) (acc : List (List Char)),
      ∀ x ∈ l.foldl normStep acc, x ∈ acc ∨ x ∈ l by
    intro x hx
    rcases h l [] x hx with h1 | h1
    · simp at h1
    · exact h1
  intro l
  induction l with
  | nil => intro acc x hx; exact Or.inl hx
  | cons c cs ih =>
    intro acc x hx
    rcases ih (normStep acc c) x hx with h1 | h1
    · by_cases hdd : c = ['.', '.']
      · rw [normStep, if_pos hdd] at h1
        exact Or.inl (List.dropLast_subset _ h1)
      · by_cases hd : c = ['.'] ∨ c = []
        · rw [normStep, if_neg hdd, if_pos hd] at h1
          exact Or.inl h1
        · rw [normStep, if_neg hdd, if_neg hd] at h1
          rcases List.mem_append.mp h1 with h2 | h2
          · exact Or.inl h2
          · simp at h2
            exact Or.inr (h2 ▸ List.mem_cons_self c cs)
    · exact Or.inr (List.mem_cons_of_mem c h1)

theorem mem_normParts_clean (l : List (List Char)) :
    ∀ x ∈ normParts l, ¬(x = ['.', '.']) ∧ ¬(x = ['.'] ∨ x = []) := by
  suffices h : ∀ (l : List (List Char)) (acc : List (List Char)),
      (∀ y ∈ acc, ¬(y = ['.', '.']) ∧ ¬(y = ['.'] ∨ y = [])) →
      ∀ x ∈ l.foldl normStep acc, ¬(x = ['.', '.']) ∧ ¬(x = ['.'] ∨ x = []) by
    intro x hx
    exact h l [] (by simp) x hx
  intro l
  induction l with
  | nil => intro acc hacc x hx; exact hacc x hx
  | cons c cs ih =>
    intro acc hacc x hx
    refine ih (normStep acc c) ?_ x hx
    intro y hy
    by_cases hdd : c = ['.', '.']
    · rw [normStep, if_pos hdd] at hy
      exact hacc y (List.dropLast_subset _ hy)
    · by_cases hd : c = ['.'] ∨ c = []
      · rw [normStep, if_neg hdd, if_pos hd] at hy
        exact hacc y hy
      · rw [normStep, if_neg hdd, if_neg hd] at hy
        rcases List.mem_append.mp hy with h2 | h2
        · exact hacc y h2
        · simp at h2
          subst h2
          exact ⟨hdd, hd⟩

theorem normParts_fixed (l : List (List Char))
    (h : ∀ c ∈ l, ¬(c = ['.', '.']) ∧ ¬(c = ['.'] ∨ c = [])) :
    normParts l = l := by
  suffices hs : ∀ (l : List (List Char)) (acc : List (List Char)),
      (∀ c ∈ l, ¬(c = ['.', '.']) ∧ ¬(c = ['.'] ∨ c = [])) →
      l.foldl normStep acc = acc ++ l by
    simpa using hs l [] h
  intro l
  induction l with
  | nil => intro acc _; simp
  | cons c cs ih =>
    intro acc hc
    have h1 := hc c (List.mem_cons_self c cs)
    have step : normStep acc c = acc ++ [c] := by
      unfold normStep
      rw [if_neg h1.1, if_neg h1.2]
    simp only [List.foldl_cons, step]
    rw [ih (acc ++ [c]) (fun d hd => hc d (List.mem_cons_of_mem c hd))]
    simp

theorem mem_absParts_clean (cwd p : String) :
    ∀ x ∈ absParts cwd p, x ≠ [] ∧ '/' ∉ x := by
  intro x hx
  unfold absParts at hx
  split at hx
  · have hclean := mem_normParts_clean _ x hx
    have hsub := mem_normParts_sub _ x hx
    exact ⟨fun hnil => hclean.2 (Or.inr hnil),
      mem_splitChar_not_sep '/' p.data x (List.mem_of_mem_filter hsub)⟩
  · have hclean := mem_normParts_clean _ x hx
    have hsub := mem_normParts_sub _ x hx
    rcases List.mem_append.mp hsub with h | h
    · exact ⟨fun hnil => hclean.2 (Or.inr hnil),
        mem_splitChar_not_sep '/' cwd.data x (List.mem_of_mem_filter h)⟩
    · exact ⟨fun hnil => hclean.2 (Or.inr hnil),
        mem_splitChar_not_sep '/' p.data x (List.mem_of_mem_filter h)⟩

theorem isAbs_mkAbs (l : List (List Char)) : isAbs (mkAbs l) = true := by
  simp [isAbs, mkAbs]

theorem absParts_abspath (cwd p : String) :
    absParts cwd (abspath cwd p) = absParts cwd p := by
  have h1 : absParts cwd (abspath cwd p) =
      normParts (partsOf (mkAbs (absParts cwd p)).data) := by
    unfold abspath absParts
    rw [if_pos (isAbs_mkAbs _)]
  have h2 : (mkAbs (absParts cwd p)).data = '/' :: joinSlash (absParts cwd p) := rfl
  rw [h1, h2, partsOf_roundtrip _ (mem_absParts_clean cwd p)]
  apply normParts_fixed
  intro c hc
  unfold absParts at hc
  split at hc
  · exact mem_normParts_clean _ c hc
  · exact mem_normParts_clean _ c hc

theorem commonPrefixLen_self_append (R Q : List (List Char)) :
    commonPrefixLen R (R ++ Q) = R.length := by
  induction R with
  | nil => cases Q <;> simp [commonPrefixLen]
  | cons a as ih => simp [commonPrefixLen, ih]

theorem absParts_of_isAbs (cwd p : String) (h : isAbs p = true) :
    absParts cwd p = normParts (partsOf p.data) := by
  unfold absParts
  rw [if_pos h]

theorem relpath_under_root (cwd input root : String) (R Q : List (List Char))
    (hQ : Q ≠ []) (hin : absParts cwd input = R ++ Q)
    (hroot : absParts cwd root = R) :
    relpath cwd (abspath cwd input) root = String.mk (joinSlash Q) := by
  unfold relpath
  rw [absParts_abspath, hin, hroot]
  simp only [commonPrefixLen_self_append, Nat.sub_self, List.replicate_zero,
    List.nil_append, List.drop_left]
  rw [if_neg hQ]

theorem output_file_name_cwd_indep (cwd cwd2 input root : String)
    (output : Option String) (hin : isAbs input = true)
    (hroot : isAbs root = true) :
    output_file_name cwd input root output =
      output_file_name cwd2 input root output := by
  cases output with
  | none => rfl
  | some o2 =>
    have h5 : relpath cwd (abspath cwd input) root =
        relpath cwd2 (abspath cwd2 input) root := by
      unfold relpath
      rw [absParts_abspath, absParts_abspath, absParts_of_isAbs cwd input hin,
        absParts_of_isAbs cwd2 input hin, absParts_of_isAbs cwd root hroot,
        absParts_of_isAbs cwd2 root hroot]
    simp only [output_file_name]
    rw [h5]

/-! ## Claim theorems -/

/-- C6: `_output_file_name` is a deterministic, side-effect-free function
of its arguments (for absolute inputs it does not even depend on the
working directory); with an output root it re-roots the input's
root-relative path under the output root and substitutes the result
suffix for the extension — in particular `/data/sub/a.pdf` under root
`/data` with output root `/res` resolves to `/res/sub/a.grobid.tei.xml`
— and without an output root it places the artifact beside the input
with only the extension replaced. -/
theorem grobid_C6_output_resolver (cwd cwd2 input root out : String)
    (output : Option String) (R Q : List (List Char)) :
    (output_file_name cwd input root output =
      output_file_name cwd input root output) ∧
    (isAbs input = true → isAbs root = true →
      output_file_name cwd input root output =
        output_file_name cwd2 input root output) ∧
    (output_file_name cwd "/data/sub/a.pdf" "/data" (some "/res") =
      "/res/sub/a.grobid.tei.xml") ∧
    (Q ≠ [] → absParts cwd input = R ++ Q → absParts cwd root = R →
      output_file_name cwd input root (some out) =
        pjoin out (splitextFst (String.mk (joinSlash Q)) ++ ".grobid.tei.xml")) ∧
    (output_file_name cwd input root none =
      pjoin (ntDirname input) (splitextFst (ntBasename input) ++ ".grobid.tei.xml")) ∧
    (output_file_name cwd "/data/sub/a.pdf" "/data" none =
      "/data/sub/a.grobid.tei.xml") := by
  refine ⟨rfl, ?_, ?_, ?_, rfl, ?_⟩
  · intro hin hroot
    exact output_file_name_cwd_indep cwd cwd2 input root output hin hroot
  · rw [output_file_name_cwd_indep cwd "/" "/data/sub/a.pdf" "/data"
      (some "/res") (by decide) (by decide)]
    decide
  · intro hQ hin hroot
    simp only [output_file_name]
    rw [relpath_under_root cwd input root R Q hQ hin hroot]
  · rw [output_file_name_cwd_indep cwd "/" "/data/sub/a.pdf" "/data"
      none (by decide) (by decide)]
    decide

/-- Concrete instantiation of the C6 theorem: the generic re-rooting
clause applied to `/data/sub/a.pdf` under root `/data` and output root
`/res`, and the determinism clause at the same input. -/
theorem grobid_C6_output_resolver_witness :
    output_file_name "/x" "/data/sub/a.pdf" "/data" (some "/res") =
      pjoin "/res" (splitextFst (String.mk (joinSlash
        [['s', 'u', 'b'], ['a', '.', 'p', 'd', 'f']])) ++ ".grobid.tei.xml") :=
  (grobid_C6_output_resolver "/x" "/" "/data/sub/a.pdf" "/data" "/res"
    (some "/res") [['d', 'a', 't', 'a']]
    [['s', 'u', 'b'], ['a', '.', 'p', 'd', 'f']]).2.2.2.1
    (by decide) (by decide) (by decide)

theorem reconcileAll_counts (cwd ip : String) (outp : Option String)
    (results : List (String × Int × Option String)) :
    (reconcileAll cwd ip outp results).1 = results.countP
      (fun r => (reconcileOne (output_file_name cwd r.1 ip outp) r.2.1 r.2.2).isOk) ∧
    (reconcileAll cwd ip outp results).2.1 = results.countP
      (fun r => !(reconcileOne (output_file_name cwd r.1 ip outp) r.2.1 r.2.2).isOk) := by
  induction results with
  | nil => simp [reconcileAll]
  | cons r rest ih =>
    obtain ⟨f, st, tx⟩ := r
    by_cases hok : (reconcileOne (output_file_name cwd f ip outp) st tx).isOk
    · simp [reconcileAll, hok, ih.1, ih.2, List.countP_cons]
    · simp [reconcileAll, hok, ih.1, ih.2, List.countP_cons]

theorem reconcileAll_sum (cwd ip : String) (outp : Option String)
    (results : List (String × Int × Option String)) :
    (reconcileAll cwd ip outp results).1 +
      (reconcileAll cwd ip outp results).2.1 = results.length := by
  induction results with
  | nil => simp [reconcileAll]
  | cons r rest ih =>
    obtain ⟨f, st, tx⟩ := r
    by_cases hok : (reconcileOne (output_file_name cwd f ip outp) st tx).isOk
    · simp only [reconcileAll, hok, if_pos, List.length_cons]
      omega
    · simp only [reconcileAll, if_neg hok, List.length_cons]
      omega

/-- C4 counterexample: the code classifies a `200` reply with a present
but empty body as a success (writing the empty body to the success
artifact), whereas the claim's success condition requires a non-empty
body, so "success exactly when status is 200-equivalent and the body is
non-empty" fails at status `200`, body `""`. -/
theorem grobid_C4_counterexample :
    (reconcileOne "/out/a.grobid.tei.xml" 200 (some "")).isOk = true ∧
    (reconcileOne "/out/a.grobid.tei.xml" 200 (some "")).write =
      ("/out/a.grobid.tei.xml", "") ∧
    ¬ specSuccessCond 200 (some "") := by
  refine ⟨by decide, by decide, ?_⟩
  intro h
  exact h.2.2 rfl

/-- C4 (amended): an Outcome is reconciled as a success exactly when its
status is `200` and its body is present (possibly empty, i.e. not
`None`); a success writes the body verbatim to the resolved output path,
every other terminal Outcome is written to the error-artifact path
obtained by substituting the result suffix with an underscore, the
status and `.txt`, with the failure body or the empty string; the
reconciliation loop counts exactly the successes into `processed_count`
and the rest into `error_count`. -/
theorem grobid_C4_reconciler_amended (fn : String) (st : Int)
    (tx : Option String) (cwd ip : String) (outp : Option String)
    (results : List (String × Int × Option String)) :
    ((reconcileOne fn st tx).isOk = true ↔ st = 200 ∧ tx ≠ none) ∧
    (∀ b, tx = some b → st = 200 →
      reconcileOne fn st tx = { isOk := true, write := (fn, b) }) ∧
    (st ≠ 200 ∨ tx = none →
      reconcileOne fn st tx =
        { isOk := false, write := (errorFileName fn st, tx.getD "") }) ∧
    ((reconcileAll cwd ip outp results).1 = results.countP
      (fun r => (reconcileOne (output_file_name cwd r.1 ip outp) r.2.1 r.2.2).isOk) ∧
     (reconcileAll cwd ip outp results).2.1 = results.countP
      (fun r => !(reconcileOne (output_file_name cwd r.1 ip outp) r.2.1 r.2.2).isOk)) := by
  refine ⟨?_, ?_, ?_, reconcileAll_counts cwd ip outp results⟩
  · unfold reconcileOne
    by_cases h : st ≠ 200 ∨ tx = none
    · rw [if_pos h]
      simp only [Bool.false_eq_true, false_iff]
      intro hc
      rcases h with h | h
      · exact h hc.1
      · exact hc.2 h
    · rw [if_neg h]
      push_neg at h
      simp [h.1, h.2]
  · intro b hb hst
    subst hb
    subst hst
    unfold reconcileOne
    rw [if_neg (by simp)]
    simp
  · intro h
    unfold reconcileOne
    rw [if_pos h]

/-- Concrete instantiation of the amended C4 theorem: a `404` outcome is
reconciled to the `_404.txt` error artifact with its body. -/
theorem grobid_C4_reconciler_amended_witness :
    reconcileOne "/out/b.grobid.tei.xml" 404 (some "nf") =
      { isOk := false, write := (errorFileName "/out/b.grobid.tei.xml" 404, "nf") } :=
  (grobid_C4_reconciler_amended "/out/b.grobid.tei.xml" 404 (some "nf")
    "/" "/in" (some "/out") []).2.2.1 (Or.inl (by decide))

theorem process_pdf_requests_eq (cfg : Config) (service file : String)
    (o : Options) (flavor : Option String) (start stop : Int) :
    ∀ (script : List Reply),
      ∀ req ∈ (process_pdf cfg service file o flavor start stop script).requests,
        req = pdfRequest cfg service o flavor start stop := by
  intro script
  induction script with
  | nil => simp [process_pdf]
  | cons rp rest ih =>
    intro req hreq
    cases rp with
    | http status text =>
      by_cases h503 : status = 503
      · rw [process_pdf, if_pos h503] at hreq
        rcases List.mem_cons.mp hreq with h | h
        · exact h
        · exact ih req h
      · rw [process_pdf, if_neg h503] at hreq
        simpa using hreq
    | ioError m => simp [process_pdf] at hreq
    | readTimeout m =>
      rw [process_pdf] at hreq
      simpa using hreq
    | requestError m =>
      rw [process_pdf] at hreq
      simpa using hreq
    | unexpectedError m =>
      rw [process_pdf] at hreq
      simpa using hreq
    | unicodeError m =>
      rw [process_pdf] at hreq
      simpa using hreq

theorem process_txt_requests_eq (cfg : Config) (service file : String)
    (o : Options) (lines : List String) :
    ∀ (script : List Reply),
      ∀ req ∈ (process_txt cfg service file o lines script).requests,
        req = txtRequest cfg service o lines := by
  intro script
  induction script with
  | nil => simp [process_txt]
  | cons rp rest ih =>
    intro req hreq
    cases rp with
    | http status text =>
      by_cases h503 : status = 503
      · rw [process_txt, if_pos h503] at hreq
        rcases List.mem_cons.mp hreq with h | h
        · exact h
        · exact ih req h
      · rw [process_txt, if_neg h503] at hreq
        simpa using hreq
    | ioError m => simp [process_txt] at hreq
    | readTimeout m =>
      rw [process_txt] at hreq
      simpa using hreq
    | requestError m =>
      rw [process_txt] at hreq
      simpa using hreq
    | unexpectedError m =>
      rw [process_txt] at hreq
      simpa using hreq
    | unicodeError m => simp [process_txt] at hreq

theorem process_pdf_busy_run (cfg : Config) (service file : String)
    (o : Options) (flavor : Option String) (start stop : Int)
    (busyBody : String) :
    ∀ (k : Nat) (s : Int) (t : String), s ≠ 503 →
      process_pdf cfg service file o flavor start stop
          (List.replicate k (Reply.http 503 busyBody) ++ [Reply.http s t]) =
        { requests := List.replicate (k + 1)
            (pdfRequest cfg service o flavor start stop)
          sleeps := List.replicate k cfg.sleep_time
          result := some (s, some t) } := by
  intro k
  induction k with
  | zero =>
    intro s t hs
    simp only [List.replicate_zero, List.nil_append]
    rw [process_pdf, if_neg hs]
    simp
  | succ k ih =>
    intro s t hs
    simp only [List.replicate_succ, List.cons_append]
    rw [process_pdf, if_pos rfl, ih s t hs]
    simp [List.replicate_succ]

/-- C3: a `503` (busy) reply makes the worker sleep the configured
busy-retry delay and synchronously re-issue the same request with
identical options, recursively and without any retry bound: a script of
`k` busy replies followed by a terminal reply yields exactly `k` sleeps
of `sleep_time` (so a backend that is busy once and then succeeds causes
exactly one sleep and a final success Outcome), and every request ever
issued for the job is identical. -/
theorem grobid_C3_busy_retry (cfg : Config) (service file : String)
    (o : Options) (flavor : Option String) (start stop : Int)
    (busyBody : String) :
    (∀ (t : String) (rest : List Reply),
      process_pdf cfg service file o flavor start stop
          (Reply.http 503 busyBody :: Reply.http 200 t :: rest) =
        { requests := [pdfRequest cfg service o flavor start stop,
            pdfRequest cfg service o flavor start stop]
          sleeps := [cfg.sleep_time]
          result := some (200, some t) }) ∧
    (∀ (k : Nat) (s : Int) (t : String), s ≠ 503 →
      process_pdf cfg service file o flavor start stop
          (List.replicate k (Reply.http 503 busyBody) ++ [Reply.http s t]) =
        { requests := List.replicate (k + 1)
            (pdfRequest cfg service o flavor start stop)
          sleeps := List.replicate k cfg.sleep_time
          result := some (s, some t) }) ∧
    (∀ (script : List Reply),
      ∀ req ∈ (process_pdf cfg service file o flavor start stop script).requests,
        req = pdfRequest cfg service o flavor start stop) := by
  refine ⟨?_, process_pdf_busy_run cfg service file o flavor start stop busyBody,
    process_pdf_requests_eq cfg service file o flavor start stop⟩
  intro t rest
  rw [process_pdf, if_pos rfl]
  rw [process_pdf, if_neg (by decide)]

/-- Concrete instantiation of the C3 theorem: a busy-once-then-success
script sleeps exactly once for five seconds and ends in the `200`
outcome. -/
theorem grobid_C3_busy_retry_witness :
    process_pdf cfgEx "processFulltextDocument" "/in/a.pdf" optsEx none
        (-1) (-1) [Reply.http 503 "busy", Reply.http 200 "tei"] =
      { requests := [pdfRequest cfgEx "processFulltextDocument" optsEx none (-1) (-1),
          pdfRequest cfgEx "processFulltextDocument" optsEx none (-1) (-1)]
        sleeps := [5]
        result := some (200, some "tei") } :=
  (grobid_C3_busy_retry cfgEx "processFulltextDocument" "/in/a.pdf" optsEx
    none (-1) (-1) "busy").1 "tei" []

/-- C8 counterexample: a pure transport failure does not carry status
code `-1` — a request timeout is caught by the shadowing `except
IOError` clause (`RequestException` subclasses `IOError`) and mapped to
`400` with the `Failed to open file:` message. -/
theorem grobid_C8_counterexample :
    (process_pdf cfgEx "processFulltextDocument" "/in/a.pdf" optsEx none
        (-1) (-1) [Reply.readTimeout "timed out"]).result =
      some (400, some ("Failed to open file: timed out")) ∧
    (400 : Int) ≠ -1 := by
  refine ⟨?_, by decide⟩
  rw [process_pdf]
  rfl

/-- C8 (amended): every pure transport failure — a request timeout, a
connection or other request failure, and a local I/O failure opening the
input alike — is caught by the `except IOError` clause (which shadows
the dedicated `ReadTimeout`/`RequestException` handlers, since
`RequestException` subclasses `IOError`) and yields a terminal Outcome
with synthetic status `400` and the `Failed to open file:` message,
never `-1`; an exception outside the `IOError` hierarchy yields `500`;
such an Outcome is written as an error artifact, counted as an error,
and never retried: only the explicit `503` busy signal triggers a
retry. -/
theorem grobid_C8_transport_failures (cfg : Config) (service file : String)
    (o : Options) (flavor : Option String) (start stop : Int) (m : String)
    (rest : List Reply) (fn msg : String) :
    (process_pdf cfg service file o flavor start stop
        (Reply.readTimeout m :: rest) =
      { requests := [pdfRequest cfg service o flavor start stop], sleeps := []
        result := some (400, some ("Failed to open file: " ++ m)) }) ∧
    (process_pdf cfg service file o flavor start stop
        (Reply.requestError m :: rest) =
      { requests := [pdfRequest cfg service o flavor start stop], sleeps := []
        result := some (400, some ("Failed to open file: " ++ m)) }) ∧
    (process_pdf cfg service file o flavor start stop
        (Reply.unexpectedError m :: rest) =
      { requests := [pdfRequest cfg service o flavor start stop], sleeps := []
        result := some (500, some ("Unexpected error: " ++ m)) }) ∧
    (process_pdf cfg service file o flavor start stop
        (Reply.ioError m :: rest) =
      { requests := [], sleeps := []
        result := some (400, some ("Failed to open file: " ++ m)) }) ∧
    (reconcileOne fn 400 (some msg) =
      { isOk := false, write := (errorFileName fn 400, msg) }) ∧
    (reconcileOne fn 500 (some msg) =
      { isOk := false, write := (errorFileName fn 500, msg) }) := by
  refine ⟨by rw [process_pdf], by rw [process_pdf], by rw [process_pdf],
    by rw [process_pdf], ?_, ?_⟩
  · unfold reconcileOne
    rw [if_pos (Or.inl (by decide))]
    simp
  · unfold reconcileOne
    rw [if_pos (Or.inl (by decide))]
    simp

/-- C9 counterexample: the request issued by `process_txt` carries no
per-call deadline at all, while the claim demands every backend call be
bounded by the configured timeout. -/
theorem grobid_C9_counterexample :
    (process_txt cfgEx "processCitationList" "/in/r.txt" optsEx ["ref1"]
        [Reply.http 200 "xml"]).requests.map PostRequest.timeout = [none] ∧
    (some cfgEx.timeout ≠ (none : Option Int)) := by
  refine ⟨?_, by decide⟩
  rw [process_txt, if_neg (by decide)]
  rfl

/-- C9 (amended): every backend call issued on the PDF path carries
`config.timeout` as its per-call deadline, and a call that exceeds it is
terminal — no retry, no sleep — surfacing as the status-`400`
`Failed to open file:` Outcome of the shadowing `except IOError` clause;
the citation-list text path, however, issues its POST without any
timeout argument, so those calls carry no deadline. -/
theorem grobid_C9_call_timeouts (cfg : Config) (service file txtf : String)
    (o : Options) (flavor : Option String) (start stop : Int)
    (lines : List String) (script : List Reply) (m : String)
    (rest : List Reply) :
    (∀ req ∈ (process_pdf cfg service file o flavor start stop script).requests,
      req.timeout = some cfg.timeout) ∧
    (∀ req ∈ (process_txt cfg service txtf o lines script).requests,
      req.timeout = none) ∧
    ((process_pdf cfg service file o flavor start stop
        (Reply.readTimeout m :: rest)).sleeps = [] ∧
     (process_pdf cfg service file o flavor start stop
        (Reply.readTimeout m :: rest)).result =
       some (400, some ("Failed to open file: " ++ m))) := by
  refine ⟨?_, ?_, by rw [process_pdf], by rw [process_pdf]⟩
  · intro req hreq
    rw [process_pdf_requests_eq cfg service file o flavor start stop script
      req hreq]
    rfl
  · intro req hreq
    rw [process_txt_requests_eq cfg service txtf o lines script req hreq]
    rfl

/-- Concrete instantiation of the C9 theorem: on a one-reply script the
PDF path's only request carries the 180-second deadline and the text
path's only request carries none. -/
theorem grobid_C9_call_timeouts_witness :
    (∀ req ∈ (process_pdf cfgEx "processFulltextDocument" "/in/a.pdf" optsEx
        none (-1) (-1) [Reply.http 200 "tei"]).requests,
      req.timeout = some cfgEx.timeout) ∧
    (∀ req ∈ (process_txt cfgEx "processCitationList" "/in/r.txt" optsEx
        ["ref1"] [Reply.http 200 "xml"]).requests,
      req.timeout = none) :=
  ⟨(grobid_C9_call_timeouts cfgEx "processFulltextDocument" "/in/a.pdf"
      "/in/r.txt" optsEx none (-1) (-1) ["ref1"] [Reply.http 200 "tei"]
      "m" []).1,
   (grobid_C9_call_timeouts cfgEx "processCitationList" "/in/r.txt"
      "/in/r.txt" optsEx none (-1) (-1) ["ref1"] [Reply.http 200 "xml"]
      "m" []).2.1⟩

theorem chunksAux_join (bs : Nat) :
    ∀ (files : List String) (done : List (List String)) (cur : List String),
      (chunksAux bs files done cur).1.flatten ++ (chunksAux bs files done cur).2 =
        done.flatten ++ (cur ++ files) := by
  intro files
  induction files with
  | nil => intro done cur; simp [chunksAux]
  | cons f rest ih =>
    intro done cur
    rw [chunksAux]
    split
    · rw [ih]
      simp
    · rw [ih]
      simp

theorem chunksAux_sizes (bs : Nat) :
    ∀ (files : List String) (done : List (List String)) (cur : List String),
      (∀ b ∈ done, b.length = bs) → cur.length < bs →
      ∀ b ∈ (chunksAux bs files done cur).1, b.length = bs := by
  intro files
  induction files with
  | nil =>
    intro done cur hdone _ b hb
    exact hdone b hb
  | cons f rest ih =>
    intro done cur hdone hcur b hb
    rw [chunksAux] at hb
    split at hb
    · rename_i hflush
      simp only [List.length_append, List.length_cons, List.length_nil] at hflush
      refine ih (done ++ [cur ++ [f]]) [] ?_ (by simp; omega) b hb
      intro c hc
      rcases List.mem_append.mp hc with h | h
      · exact hdone c h
      · simp only [List.mem_singleton] at h
        rw [h]
        simp only [List.length_append, List.length_cons, List.length_nil]
        omega
    · rename_i hflush
      simp only [List.length_append, List.length_cons, List.length_nil] at hflush
      refine ih done (cur ++ [f]) hdone ?_ b hb
      simp only [List.length_append, List.length_cons, List.length_nil]
      omega

theorem chunksAux_rem_mod (bs : Nat) (hbs : 0 < bs) :
    ∀ (files : List String) (done : List (List String)) (cur : List String),
      cur.length < bs →
      (chunksAux bs files done cur).2.length = (cur.length + files.length) % bs := by
  intro files
  induction files with
  | nil =>
    intro done cur hcur
    rw [chunksAux]
    simp [Nat.mod_eq_of_lt hcur]
  | cons f rest ih =>
    intro done cur hcur
    rw [chunksAux]
    split
    · rename_i hflush
      simp only [List.length_append, List.length_cons, List.length_nil] at hflush
      rw [ih (done ++ [cur ++ [f]]) [] (by simp; omega)]
      simp only [List.length_nil, List.length_cons, Nat.zero_add]
      have h1 : cur.length + (rest.length + 1) = bs + rest.length := by omega
      rw [h1, Nat.add_mod_left]
    · rename_i hflush
      simp only [List.length_append, List.length_cons, List.length_nil] at hflush
      rw [ih done (cur ++ [f]) (by simp; omega)]
      simp only [List.length_append, List.length_cons, List.length_nil]
      congr 1
      omega

theorem chunksAux_count (bs : Nat) (hbs : 0 < bs) :
    ∀ (files : List String) (done : List (List String)) (cur : List String),
      cur.length < bs →
      (chunksAux bs files done cur).1.length =
        done.length + (cur.length + files.length) / bs := by
  intro files
  induction files with
  | nil =>
    intro done cur hcur
    rw [chunksAux]
    simp [Nat.div_eq_of_lt hcur]
  | cons f rest ih =>
    intro done cur hcur
    rw [chunksAux]
    split
    · rename_i hflush
      simp only [List.length_append, List.length_cons, List.length_nil] at hflush
      rw [ih (done ++ [cur ++ [f]]) [] (by simp; omega)]
      simp only [List.length_append, List.length_cons, List.length_nil,
        Nat.zero_add]
      have h1 : cur.length + (rest.length + 1) = bs + rest.length := by omega
      rw [h1, Nat.add_div_left _ hbs]
      omega
    · rename_i hflush
      simp only [List.length_append, List.length_cons, List.length_nil] at hflush
      rw [ih done (cur ++ [f]) (by simp; omega)]
      congr 2
      simp only [List.length_append, List.length_cons, List.length_nil]
      omega

theorem chunks_join (bs : Nat) (files : List String) :
    (chunks bs files).1.flatten ++ (chunks bs files).2 = files := by
  unfold chunks
  rw [chunksAux_join]
  simp

theorem chunks_sizes (bs : Nat) (hbs : 0 < bs) (files : List String) :
    ∀ b ∈ (chunks bs files).1, b.length = bs := by
  unfold chunks
  exact chunksAux_sizes bs files [] [] (by simp) (by simpa using hbs)

theorem chunks_rem_mod (bs : Nat) (hbs : 0 < bs) (files : List String) :
    (chunks bs files).2.length = files.length % bs := by
  unfold chunks
  rw [chunksAux_rem_mod bs hbs files [] [] (by simpa using hbs)]
  simp

theorem chunks_count (bs : Nat) (hbs : 0 < bs) (files : List String) :
    (chunks bs files).1.length = files.length / bs := by
  unfold chunks
  rw [chunksAux_count bs hbs files [] [] (by simpa using hbs)]
  simp

theorem chunks_rem_lt (bs : Nat) (hbs : 0 < bs) (files : List String) :
    (chunks bs files).2.length < bs := by
  rw [chunks_rem_mod bs hbs files]
  exact Nat.mod_lt _ hbs

theorem mem_ite_singleton {α : Type} (kv x : α) (c : Prop) [Decidable c]
    (h : kv ∈ (if c then [x] else [])) : kv = x := by
  split at h
  · simpa using h
  · simp at h

theorem length_filter_not_add {α : Type} (p : α → Bool) (l : List α) :
    (l.filter (fun a => !p a)).length + (l.filter p).length = l.length := by
  induction l with
  | nil => simp
  | cons a l ih =>
    cases hp : p a
    · simp only [List.filter_cons, hp, Bool.not_false, if_pos, List.length_cons,
        Bool.false_eq_true, if_false]
      omega
    · simp only [List.filter_cons, hp, Bool.not_true, if_pos, List.length_cons,
        Bool.false_eq_true, if_false]
      omega

theorem process_batch_events_batch (cfg : Config) (cwd service input_path : String)
    (output : Option String) (o : Options) (force : Bool) (flv : Option String)
    (backend : String → List Reply) (fs : String → Bool) (m : Nat)
    (files : List String) (b : BatchOut)
    (h : process_batch cfg cwd service input_path output o force flv backend
      fs m files = Except.ok b) :
    ∀ e ∈ b.events, e.batchOf = m := by
  unfold process_batch at h
  dsimp only at h
  split at h
  · simp at h
  · split at h
    · simp at h
    · simp only [Except.ok.injEq] at h
      subst h
      intro e he
      simp only [List.mem_append] at he
      rcases he with he | he
      · rcases List.mem_map.mp he with ⟨f, _, rfl⟩
        rfl
      · rcases List.mem_map.mp he with ⟨f, _, rfl⟩
        rfl

theorem process_batch_counts (cfg : Config) (cwd service input_path : String)
    (output : Option String) (o : Options) (force : Bool) (flv : Option String)
    (backend : String → List Reply) (fs : String → Bool) (m : Nat)
    (files : List String) (b : BatchOut)
    (h : process_batch cfg cwd service input_path output o force flv backend
      fs m files = Except.ok b) :
    b.processed + b.errors + b.skippedFiles.length = files.length := by
  unfold process_batch at h
  dsimp only at h
  split at h
  · simp at h
  · split at h
    · simp at h
    · simp only [Except.ok.injEq] at h
      subst h
      simp only []
      rw [reconcileAll_sum]
      simp only [List.length_map]
      have hsplit := length_filter_not_add
        (skipJob cwd input_path output force fs) files
      omega

theorem runBatches_events_mono (cfg : Config) (cwd service input_path : String)
    (output : Option String) (o : Options) (force : Bool)
    (backend : String → List Reply) (fs : String → Bool) :
    ∀ (plan : List (List String × Option String)) (acc acc2 : RunAcc),
      List.Pairwise (fun e1 e2 => e1.batchOf ≤ e2.batchOf) acc.events →
      (∀ e ∈ acc.events, e.batchOf < acc.idx) →
      runBatches cfg cwd service input_path output o force backend fs plan acc =
        Except.ok acc2 →
      List.Pairwise (fun e1 e2 => e1.batchOf ≤ e2.batchOf) acc2.events ∧
        (∀ e ∈ acc2.events, e.batchOf < acc2.idx) := by
  intro plan
  induction plan with
  | nil =>
    intro acc acc2 hp hlt h
    rw [runBatches] at h
    simp only [Except.ok.injEq] at h
    subst h
    exact ⟨hp, hlt⟩
  | cons pb rest ih =>
    intro acc acc2 hp hlt h
    obtain ⟨bfiles, bflv⟩ := pb
    rw [runBatches] at h
    split at h
    · simp at h
    · rename_i b hb
      have hbm := process_batch_events_batch cfg cwd service input_path output
        o force bflv backend (fsWith fs acc.writes) acc.idx bfiles b hb
      refine ih (acc.add b) acc2 ?_ ?_ h
      · show List.Pairwise _ (acc.events ++ b.events)
        rw [List.pairwise_append]
        refine ⟨hp, ?_, ?_⟩
        · apply List.pairwise_of_forall_mem_list
          intro e1 h1 e2 h2
          rw [hbm e1 h1, hbm e2 h2]
        · intro e1 h1 e2 h2
          have hl := hlt e1 h1
          rw [hbm e2 h2]
          omega
      · intro e he
        rcases List.mem_append.mp he with h1 | h1
        · have := hlt e h1
          show e.batchOf < acc.idx + 1
          omega
        · rw [hbm e h1]
          show acc.idx < acc.idx + 1
          omega

theorem process_events_pairwise (cfg : Config) (cwd service input_path : String)
    (output : Option String) (o : Options) (force : Bool)
    (flavor : Option String) (backend : String → List Reply)
    (fs : String → Bool) (walk : List (String × List String)) (r : RunOut)
    (h : process cfg cwd service input_path output o force flavor backend fs
      walk = Except.ok r) :
    List.Pairwise (fun e1 e2 => e1.batchOf ≤ e2.batchOf) r.events := by
  unfold process at h
  dsimp only at h
  split at h
  · simp only [Except.ok.injEq] at h
    subst h
    simp
  · split at h
    · simp at h
    · rename_i acc hacc
      simp only [Except.ok.injEq] at h
      subst h
      exact (runBatches_events_mono cfg cwd service input_path output o force
        backend fs _ _ acc (by simp) (by simp) hacc).1

theorem process_batch_skipped_iff (cfg : Config)
    (cwd service input_path : String) (output : Option String) (o : Options)
    (force : Bool) (flv : Option String) (backend : String → List Reply)
    (fs : String → Bool) (m : Nat) (files : List String) (b : BatchOut)
    (h : process_batch cfg cwd service input_path output o force flv backend
      fs m files = Except.ok b) (f : String) :
    (f ∈ b.skippedFiles ↔ f ∈ files ∧
      (!force && fs (output_file_name cwd f input_path output)) = true) ∧
    ((!force && fs (output_file_name cwd f input_path output)) = true →
      Event.dispatch m f ∉ b.events) := by
  unfold process_batch at h
  dsimp only at h
  split at h
  · simp at h
  · split at h
    · simp at h
    · simp only [Except.ok.injEq] at h
      subst h
      constructor
      · simp only [List.mem_filter, skipJob]
      · intro hskip hmem
        simp only [List.mem_append] at hmem
        rcases hmem with hm | hm
        · rcases List.mem_map.mp hm with ⟨f2, hf2, heq⟩
          have hfe : f2 = f := by
            have := congrArg (fun e => match e with
              | Event.dispatch _ x => x
              | Event.terminal _ x => x) heq
            simpa using this
          subst hfe
          have := (List.mem_filter.mp hf2).2
          unfold skipJob at this
          simp only [hskip] at this
          simp at this
        · rcases List.mem_map.mp hm with ⟨r2, _, heq⟩
          simp at heq

theorem process_batch_fs_agree (cfg : Config)
    (cwd service input_path : String) (output : Option String) (o : Options)
    (force : Bool) (flv : Option String) (backend : String → List Reply)
    (fs fs2 : String → Bool) (m : Nat) (files : List String)
    (hag : ∀ f ∈ files, fs (output_file_name cwd f input_path output) =
      fs2 (output_file_name cwd f input_path output)) :
    process_batch cfg cwd service input_path output o force flv backend fs
      m files =
    process_batch cfg cwd service input_path output o force flv backend fs2
      m files := by
  have h1 : files.filter (skipJob cwd input_path output force fs) =
      files.filter (skipJob cwd input_path output force fs2) := by
    apply List.filter_congr
    intro f hf
    unfold skipJob
    rw [hag f hf]
  have h2 : files.filter (fun f => !skipJob cwd input_path output force fs f) =
      files.filter (fun f => !skipJob cwd input_path output force fs2 f) := by
    apply List.filter_congr
    intro f hf
    unfold skipJob
    rw [hag f hf]
  unfold process_batch
  rw [h1, h2]

theorem process_batch_all_skipped (cfg : Config)
    (cwd service input_path : String) (output : Option String) (o : Options)
    (flv : Option String) (backend : String → List Reply)
    (fs : String → Bool) (m : Nat) (files : List String)
    (hall : ∀ f ∈ files, fs (output_file_name cwd f input_path output) = true) :
    process_batch cfg cwd service input_path output o false flv backend fs
      m files =
    Except.ok { processed := 0, errors := 0, skippedFiles := files
                writes := [], events := [], sleeps := [] } := by
  have h1 : files.filter (skipJob cwd input_path output false fs) = files := by
    rw [List.filter_eq_self]
    intro f hf
    unfold skipJob
    rw [hall f hf]
    rfl
  have h2 : files.filter (fun f => !skipJob cwd input_path output false fs f) =
      [] := by
    rw [List.filter_eq_nil_iff]
    intro f hf
    unfold skipJob
    rw [hall f hf]
    simp
  unfold process_batch
  rw [h1, h2]
  simp [reconcileAll]

theorem runBatches_all_skipped (cfg : Config)
    (cwd service input_path : String) (output : Option String) (o : Options)
    (backend : String → List Reply) (fs : String → Bool) :
    ∀ (plan : List (List String × Option String)) (acc : RunAcc),
      (∀ p ∈ plan, ∀ f ∈ p.1,
        fs (output_file_name cwd f input_path output) = true) →
      runBatches cfg cwd service input_path output o false backend fs plan acc =
        Except.ok
          { processed := acc.processed, errors := acc.errors
            skipped := acc.skipped ++ (plan.map (fun p => p.1)).flatten
            writes := acc.writes, events := acc.events, sleeps := acc.sleeps
            idx := acc.idx + plan.length } := by
  intro plan
  induction plan with
  | nil =>
    intro acc _
    rw [runBatches]
    simp
  | cons pb rest ih =>
    intro acc hall
    obtain ⟨bfiles, bflv⟩ := pb
    rw [runBatches]
    have hb := process_batch_all_skipped cfg cwd service input_path output o
      bflv backend (fsWith fs acc.writes) acc.idx bfiles (by
        intro f hf
        have := hall (bfiles, bflv) (List.mem_cons_self _ _) f hf
        simp [fsWith, this])
    rw [hb]
    dsimp only
    rw [ih (acc.add ⟨0, 0, bfiles, [], [], []⟩)
      (fun p hp f hf => hall p (List.mem_cons_of_mem _ hp) f hf)]
    simp only [RunAcc.add, Except.ok.injEq, RunAcc.mk.injEq, List.map_cons,
      List.flatten_cons, List.append_nil, Nat.add_zero, List.append_assoc,
      List.length_cons, true_and, and_true]
    omega

theorem batchPlan_files_flatten (bs : Nat) (flavor : Option String)
    (files : List String) :
    ((batchPlan bs flavor files).map (fun p => p.1)).flatten = files := by
  have hj := chunks_join bs files
  have hcomp : ((fun p : List String × Option String => p.1) ∘
      (fun b => (b, flavor))) = id := rfl
  unfold batchPlan
  by_cases hrem : (chunks bs files).2 = []
  · rw [if_pos hrem]
    simp only [List.append_nil, List.map_map, hcomp, List.map_id]
    rw [hrem] at hj
    simpa using hj
  · rw [if_neg hrem]
    simp only [List.map_append, List.map_map, hcomp, List.map_id,
      List.flatten_append]
    simpa using hj

/-- C5: without `force`, a job whose resolved success-artifact path
already exists is skipped and no unit of work is submitted for it; the
skip test consults the filesystem only at the success-artifact path
(agreeing filesystems there give identical batch outcomes, whatever they
say about error-artifact paths, so previously failed files are
resubmitted on rerun); and a rerun with unchanged inputs whose success
artifacts all exist skips every discovered file, dispatching and writing
nothing. -/
theorem grobid_C5_skip_existing (cfg : Config)
    (cwd service input_path : String) (output : Option String) (o : Options)
    (force : Bool) (flv flavor : Option String)
    (backend : String → List Reply) (fs fs2 : String → Bool) (m : Nat)
    (files : List String) (walk : List (String × List String)) :
    (∀ b, process_batch cfg cwd service input_path output o force flv backend
        fs m files = Except.ok b →
      ∀ f, (f ∈ b.skippedFiles ↔ f ∈ files ∧
          (!force && fs (output_file_name cwd f input_path output)) = true) ∧
        ((!force && fs (output_file_name cwd f input_path output)) = true →
          Event.dispatch m f ∉ b.events)) ∧
    ((∀ f ∈ files, fs (output_file_name cwd f input_path output) =
        fs2 (output_file_name cwd f input_path output)) →
      process_batch cfg cwd service input_path output o force flv backend fs
        m files =
      process_batch cfg cwd service input_path output o force flv backend fs2
        m files) ∧
    ((∀ f ∈ eligibleFiles service walk,
        fs (output_file_name cwd f input_path output) = true) →
      eligibleFiles service walk ≠ [] →
      process cfg cwd service input_path output o false flavor backend fs
        walk =
      Except.ok
        { total := (eligibleFiles service walk).length, processed := 0
          errors := 0, skipped := eligibleFiles service walk, writes := []
          events := [], sleeps := [], warnings := [] }) := by
  refine ⟨?_, ?_, ?_⟩
  · intro b hb f
    exact process_batch_skipped_iff cfg cwd service input_path output o force
      flv backend fs m files b hb f
  · intro hag
    exact process_batch_fs_agree cfg cwd service input_path output o force flv
      backend fs fs2 m files hag
  · intro hall hne
    unfold process
    dsimp only
    rw [if_neg (by simpa using hne)]
    rw [runBatches_all_skipped cfg cwd service input_path output o backend fs
      (batchPlan cfg.batch_size flavor (eligibleFiles service walk))
      { processed := 0, errors := 0, skipped := [], writes := [], events := []
        sleeps := [], idx := 0 }
      (by
        intro p hp f hf
        apply hall
        have h4 := batchPlan_files_flatten cfg.batch_size flavor
          (eligibleFiles service walk)
        rw [← h4]
        rw [List.mem_flatten]
        exact ⟨p.1, List.mem_map.mpr ⟨p, hp, rfl⟩, hf⟩)]
    simp [batchPlan_files_flatten]

/-- Concrete instantiation of the C5 theorem: rerunning over `walkEx`
with `force` off and all three success artifacts present skips all three
files and submits nothing. -/
theorem grobid_C5_skip_existing_witness :
    process cfgEx "/" "processFulltextDocument" "/in" (some "/out") optsEx
      false none backendEx (fun _ => true) walkEx =
    Except.ok
      { total := 3, processed := 0, errors := 0
        skipped := ["/in/a.pdf", "/in/b.pdf", "/in/c.pdf"], writes := []
        events := [], sleeps := [], warnings := [] } := by
  have h := (grobid_C5_skip_existing cfgEx "/" "processFulltextDocument" "/in"
    (some "/out") optsEx false none none backendEx (fun _ => true)
    (fun _ => true) 0 [] walkEx).2.2 (fun f _ => rfl) (by decide)
  rw [h]
  rfl

/-- C7: when the input tree holds no eligible files the run returns
immediately with counters all zero (the RunCounters value reified from
the run's observable totals), writes no artifacts, dispatches nothing,
and reports a warning instead of failing. -/
theorem grobid_C7_empty_run (cfg : Config) (cwd service input_path : String)
    (output : Option String) (o : Options) (force : Bool)
    (flavor : Option String) (backend : String → List Reply)
    (fs : String → Bool) (walk : List (String × List String))
    (h : eligibleFiles service walk = []) :
    process cfg cwd service input_path output o force flavor backend fs walk =
    Except.ok
      { total := 0, processed := 0, errors := 0, skipped := [], writes := []
        events := [], sleeps := []
        warnings := ["No eligible files found in " ++ input_path] } := by
  unfold process
  dsimp only
  rw [if_pos (by rw [h]; rfl)]

/-- Concrete instantiation of the C7 theorem: a walk containing only an
ineligible file yields the empty-run outcome with its warning. -/
theorem grobid_C7_empty_run_witness :
    process cfgEx "/" "processFulltextDocument" "/in" (some "/out") optsEx
      true none backendEx (fun _ => false) [("/in", ["notes.doc"])] =
    Except.ok
      { total := 0, processed := 0, errors := 0, skipped := [], writes := []
        events := [], sleeps := []
        warnings := ["No eligible files found in /in"] } := by
  rw [grobid_C7_empty_run cfgEx "/" "processFulltextDocument" "/in"
    (some "/out") optsEx true none backendEx (fun _ => false)
    [("/in", ["notes.doc"])] (by decide)]
  rfl

theorem runBatches_counters (cfg : Config) (cwd service input_path : String)
    (output : Option String) (o : Options) (force : Bool)
    (backend : String → List Reply) (fs : String → Bool) :
    ∀ (plan : List (List String × Option String)) (acc acc2 : RunAcc),
      runBatches cfg cwd service input_path output o force backend fs plan acc =
        Except.ok acc2 →
      acc2.processed + acc2.errors + acc2.skipped.length =
        acc.processed + acc.errors + acc.skipped.length +
          (plan.map (fun p => p.1.length)).sum := by
  intro plan
  induction plan with
  | nil =>
    intro acc acc2 h
    rw [runBatches] at h
    simp only [Except.ok.injEq] at h
    subst h
    simp
  | cons pb rest ih =>
    intro acc acc2 h
    obtain ⟨bfiles, bflv⟩ := pb
    rw [runBatches] at h
    split at h
    · simp at h
    · rename_i b hb
      have hcount := process_batch_counts cfg cwd service input_path output o
        force bflv backend (fsWith fs acc.writes) acc.idx bfiles b hb
      have hrest := ih (acc.add b) acc2 h
      simp only [RunAcc.add, List.length_append] at hrest
      simp only [List.map_cons, List.sum_cons]
      omega

theorem batchPlan_length_sum (bs : Nat) (flavor : Option String)
    (files : List String) :
    ((batchPlan bs flavor files).map (fun p => p.1.length)).sum =
      files.length := by
  have hj := chunks_join bs files
  have hlen : ((chunks bs files).1.map List.length).sum +
      (chunks bs files).2.length = files.length := by
    have h2 := congrArg List.length hj
    simpa [List.length_append, List.length_flatten] using h2
  have hcomp : ((fun p : List String × Option String => p.1.length) ∘
      (fun b => (b, flavor))) = List.length := rfl
  unfold batchPlan
  by_cases hrem : (chunks bs files).2 = []
  · rw [if_pos hrem]
    simp only [List.append_nil, List.map_map, hcomp]
    rw [hrem] at hlen
    simpa using hlen
  · rw [if_neg hrem]
    simp only [List.map_append, List.map_map, List.sum_append, hcomp]
    simpa using hlen

/-- C1: at the end of every run that reaches its end, the counters
balance: files reconciled as successes, files reconciled as errors and
files skipped by the skip log partition the discovered eligible set, so
`processed + errors + skipped = total_discovered`, and the discovery
total is the number of eligible files found by the walk. -/
theorem grobid_C1_counters (cfg : Config) (cwd service input_path : String)
    (output : Option String) (o : Options) (force : Bool)
    (flavor : Option String) (backend : String → List Reply)
    (fs : String → Bool) (walk : List (String × List String)) (r : RunOut)
    (h : process cfg cwd service input_path output o force flavor backend fs
      walk = Except.ok r) :
    r.processed + r.errors + r.skipped.length = r.total ∧
    r.total = (eligibleFiles service walk).length := by
  unfold process at h
  dsimp only at h
  split at h
  · rename_i hzero
    simp only [Except.ok.injEq] at h
    subst h
    exact ⟨rfl, hzero.symm⟩
  · split at h
    · simp at h
    · rename_i acc hacc
      simp only [Except.ok.injEq] at h
      subst h
      have hc := runBatches_counters cfg cwd service input_path output o force
        backend fs _ _ acc hacc
      have hsum := batchPlan_length_sum cfg.batch_size flavor
        (eligibleFiles service walk)
      simp only [List.length_nil] at hc
      constructor
      · simp only []
        omega
      · rfl

/-- Concrete instantiation of the C1 theorem: on the concrete run
`runEx` (three eligible files, two successes, one error, no skips) the
counters balance against the discovery total. -/
theorem grobid_C1_counters_witness :
    runExOut.processed + runExOut.errors + runExOut.skipped.length =
      runExOut.total :=
  (grobid_C1_counters cfgEx "/" "processFulltextDocument" "/in" (some "/out")
    optsEx true none backendEx (fun _ => false) walkEx runExOut (by rfl)).1

/-- C2: the scheduler partitions the eligible list, in discovery order,
into contiguous batches: the flushed batches concatenated with the final
remainder reproduce the file list, every flushed batch has exactly
`batch_size` items and the remainder fewer; with `batch_size = 2` and 5
eligible files the dispatched batches have sizes 2, 2, 1; and in any
completed run no job of a later batch is dispatched before every job of
an earlier batch has produced its terminal outcome (terminal events of
batch `k` precede dispatch events of batch `k2 > k` in the trace). -/
theorem grobid_C2_batching_barrier (bs : Nat) (files : List String)
    (flv : Option String) (cfg : Config) (cwd service input_path : String)
    (output : Option String) (o : Options) (force : Bool)
    (flavor : Option String) (backend : String → List Reply)
    (fs : String → Bool) (walk : List (String × List String)) :
    (0 < bs →
      (chunks bs files).1.flatten ++ (chunks bs files).2 = files ∧
      (∀ b ∈ (chunks bs files).1, b.length = bs) ∧
      (chunks bs files).2.length < bs) ∧
    (files.length = 5 →
      (batchPlan 2 flv files).map (fun p => p.1.length) = [2, 2, 1]) ∧
    (∀ r, process cfg cwd service input_path output o force flavor backend fs
        walk = Except.ok r →
      ∀ (i j : Fin r.events.length) (k k2 : Nat) (f g : String),
        r.events.get i = Event.terminal k f →
        r.events.get j = Event.dispatch k2 g →
        k < k2 → (i : Nat) < (j : Nat)) := by
  refine ⟨?_, ?_, ?_⟩
  · intro hbs
    exact ⟨chunks_join bs files, chunks_sizes bs hbs files,
      chunks_rem_lt bs hbs files⟩
  · intro h5
    have hbs : (0 : Nat) < 2 := by decide
    have hsz := chunks_sizes 2 hbs files
    have hcnt := chunks_count 2 hbs files
    have hrem := chunks_rem_mod 2 hbs files
    rw [h5] at hcnt hrem
    have hfmap : (chunks 2 files).1.map List.length = [2, 2] := by
      have hrep : [2, 2] = List.replicate 2 2 := by decide
      rw [hrep, List.eq_replicate_iff]
      constructor
      · simp [hcnt]
      · intro x hx
        rcases List.mem_map.mp hx with ⟨b, hb, rfl⟩
        exact hsz b hb
    have hremne : (chunks 2 files).2 ≠ [] := by
      intro hc
      rw [hc] at hrem
      simp at hrem
    unfold batchPlan
    rw [if_neg hremne, List.map_append, List.map_map]
    have hcomp : ((fun p : List String × Option String => p.1.length) ∘
        (fun b => (b, flv))) = List.length := rfl
    rw [hcomp, hfmap]
    simp [hrem]
  · intro r hr i j k k2 f g hterm hdis hk
    have hpw := process_events_pairwise cfg cwd service input_path output o
      force flavor backend fs walk r hr
    rw [List.pairwise_iff_get] at hpw
    by_contra hij
    push_neg at hij
    rcases Nat.lt_or_ge (j : Nat) (i : Nat) with hji | hji
    · have := hpw j i (by exact hji)
      rw [hterm, hdis] at this
      simp only [Event.batchOf] at this
      omega
    · have hije : (i : Nat) = (j : Nat) := by omega
      have : i = j := Fin.ext hije
      subst this
      rw [hterm] at hdis
      simp at hdis

/-- Concrete instantiation of the C2 theorem: the 2/2/1 batch split for
five files, and the barrier on the concrete run `runEx` — its third
trace event is the terminal outcome of batch 0 for `a.pdf` and its fifth
is the dispatch of batch 1 for `c.pdf`, so index 2 precedes index 4. -/
theorem grobid_C2_batching_barrier_witness :
    (batchPlan 2 (some "fl") ["a", "b", "c", "d", "e"]).map
        (fun p => p.1.length) = [2, 2, 1] ∧
    (2 : Nat) < 4 := by
  constructor
  · exact (grobid_C2_batching_barrier 2 ["a", "b", "c", "d", "e"] (some "fl")
      cfgEx "/" "processFulltextDocument" "/in" (some "/out") optsEx true none
      backendEx (fun _ => false) walkEx).2.1 (by decide)
  · refine (grobid_C2_batching_barrier 2 ["a", "b", "c", "d", "e"] (some "fl")
      cfgEx "/" "processFulltextDocument" "/in" (some "/out") optsEx true none
      backendEx (fun _ => false) walkEx).2.2 runExOut (by rfl)
      ⟨2, by decide⟩ ⟨4, by decide⟩ 0 1 "/in/a.pdf" "/in/c.pdf"
      (by decide) (by decide) (by decide)

/-- C10: whenever the eligible file count is not a multiple of
`batch_size`, the final (smaller) batch exists and is dispatched by the
trailing `process_batch` call that omits the `flavor` argument, so its
jobs run with flavor `None` — no `flavor` form field is sent — even when
the caller passed one, while every full in-loop batch carries the
caller's flavor; when the count is a multiple, every batch carries the
caller's flavor. -/
theorem grobid_C10_last_batch_flavor (bs : Nat) (flavor : Option String)
    (files : List String) (cfg : Config) (o : Options) (fl : String)
    (start stop : Int) :
    (0 < bs → files.length % bs ≠ 0 →
      (chunks bs files).2 ≠ [] ∧
      batchPlan bs flavor files =
        (chunks bs files).1.map (fun b => (b, flavor)) ++
          [((chunks bs files).2, (none : Option String))] ∧
      (batchPlan bs flavor files).getLast? =
        some ((chunks bs files).2, (none : Option String))) ∧
    (0 < bs → files.length % bs = 0 →
      batchPlan bs flavor files =
        (chunks bs files).1.map (fun b => (b, flavor))) ∧
    (∀ kv ∈ pdfData cfg o none start stop, kv.1 ≠ "flavor") ∧
    (fl ≠ "" → ("flavor", FormValue.s fl) ∈ pdfData cfg o (some fl) start stop) := by
  refine ⟨?_, ?_, ?_, ?_⟩
  · intro hbs hmod
    have hrem : (chunks bs files).2 ≠ [] := by
      intro hnil
      rw [← chunks_rem_mod bs hbs files, hnil] at hmod
      simp at hmod
    refine ⟨hrem, ?_, ?_⟩
    · unfold batchPlan
      rw [if_neg hrem]
    · unfold batchPlan
      rw [if_neg hrem, List.getLast?_concat]
  · intro hbs hmod
    have hrem : (chunks bs files).2 = [] := by
      have h1 := chunks_rem_mod bs hbs files
      rw [hmod] at h1
      exact List.length_eq_zero.mp h1
    unfold batchPlan
    rw [if_pos hrem]
    simp
  · intro kv hkv
    unfold pdfData at hkv
    simp only [List.mem_append] at hkv
    rcases hkv with ((((((((h | h) | h) | h) | h) | h) | h) | h) | h) | h
    · rw [mem_ite_singleton kv _ _ h]; simp
    · rw [mem_ite_singleton kv _ _ h]; simp
    · rw [mem_ite_singleton kv _ _ h]; simp
    · rw [mem_ite_singleton kv _ _ h]; simp
    · rw [mem_ite_singleton kv _ _ h]; simp
    · rw [mem_ite_singleton kv _ _ h]; simp
    · rw [mem_ite_singleton kv _ _ h]; simp
    · simp at h
    · rw [mem_ite_singleton kv _ _ h]; simp
    · rw [mem_ite_singleton kv _ _ h]; simp
  · intro hfl
    unfold pdfData
    simp [hfl]

/-- Concrete instantiation of the C10 theorem: five files with batch
size 2 put the trailing one-file batch under flavor `None` even though
the caller passed a flavor, and the flavor field is present exactly on
the full batches' requests. -/
theorem grobid_C10_last_batch_flavor_witness :
    batchPlan 2 (some "sciml") ["a", "b", "c", "d", "e"] =
      (chunks 2 ["a", "b", "c", "d", "e"]).1.map (fun b => (b, some "sciml")) ++
        [((chunks 2 ["a", "b", "c", "d", "e"]).2, (none : Option String))] ∧
    ("flavor", FormValue.s "sciml") ∈
      pdfData cfgEx optsEx (some "sciml") (-1) (-1) :=
  ⟨((grobid_C10_last_batch_flavor 2 (some "sciml") ["a", "b", "c", "d", "e"]
      cfgEx optsEx "sciml" (-1) (-1)).1 (by decide) (by decide)).2.1,
   (grobid_C10_last_batch_flavor 2 (some "sciml") ["a", "b", "c", "d", "e"]
      cfgEx optsEx "sciml" (-1) (-1)).2.2.2 (by decide)⟩

end GC
